import Mathlib

/-!
Verification development for the perplexed video pipeline.

The definitions below are a shallow embedding of the repository's Python
sources: `src/app/common/video.py`, `src/app/common/perplexity.py`,
`src/app/worker.py` and `src/app/routes/jobs.py`.  Pure computations become
Lean functions; the worker's interactions with the Redis job ledger become a
small-step machine over an explicit `Ledger` state, with the results of
external calls (downloads, transcription, search, ffmpeg) resolved by
oracle parameters, since those calls do not touch the shared ledger.
The ledger and the task queue themselves are modelled as reliable: a Redis
command or an arq enqueue never raises.
-/

namespace Perplexed

/-! ## Split-stage clip counting (`src/app/common/video.py`, `src/app/worker.py`) -/

/-- From `src/app/common/video.py::split_video`, line 31:
`num_clips = int(total_duration / clip_duration) + (1 if total_duration % clip_duration > 0 else 0)`.
`total_duration` is the nonnegative float printed by ffprobe; for nonnegative
arguments Python `int()` is `⌊·⌋` and `x % y` is `x - y * ⌊x / y⌋`.
Durations are modelled as rationals. -/
def num_clips (T c : ℚ) : ℤ :=
  ⌊T / c⌋ + (if T - c * ⌊T / c⌋ > 0 then 1 else 0)

/-- From `src/app/worker.py::split_video` (lines 78-137): when `max_duration` is
truthy (nonzero) the source is first re-encoded with `ffmpeg -t max_duration`,
which truncates it to `min source maxDur` seconds; the trimmed file is then
split with `split_video` from `video.py` and one chunk is uploaded per index,
after which `job:{id}:total` is set to the number of chunks. -/
def split_stage_clip_count (source chunk maxDur : ℚ) : ℤ :=
  num_clips (if maxDur ≠ 0 then min source maxDur else source) chunk

/-- Default `chunk_duration` of `worker.split_video` (line 78). -/
def chunk_duration_default : ℚ := 20

/-- Default `max_duration` of `worker.split_video` (line 78).  The docstring
claims "default 120 = 2 minutes" but the signature says 40. -/
def max_duration_default : ℚ := 40

/-! ## Reference lookup (`src/app/common/perplexity.py`) -/

/-- The `type` field of `ContentReference` (perplexity.py lines 43-46). -/
inductive ContentType where
  | book
  | article
  | video
  | item
  | other
deriving DecidableEq, Repr

/-- The `ContentReference` model (perplexity.py lines 43-46). -/
structure ContentRef where
  description : String
  type : ContentType
deriving DecidableEq, Repr

/-- The `TranscriptReferencesFormat` model (perplexity.py lines 48-53): what
`extract_references_from_transcript` returns.  On any extraction failure that
function returns the empty record, so extraction failure is modelled by the
record whose four lists are empty. -/
structure TranscriptRefs where
  organisations : List String
  people : List String
  content : List ContentRef
  events : List String
deriving DecidableEq, Repr

/-- The `SearchResponseFormat` model (perplexity.py lines 24-26), the part of the
search result used downstream. -/
structure SearchResult where
  web_url : String
  image_url : String
deriving DecidableEq, Repr

/-- Oracle resolving the external `search_*` calls of perplexity.py.
`none` models the call raising an exception. -/
structure SearchOracle where
  book : String → Option SearchResult
  video : String → Option SearchResult
  item : String → Option SearchResult
  contentGeneric : String → Option SearchResult
  person : String → Option SearchResult
  organisation : String → Option SearchResult
  event : String → Option SearchResult

/-- The content-type dispatch of `process_transcript_references`
(perplexity.py lines 392-400): `book` → `search_book`, `video` →
`search_video`, `item` → `search_item`, anything else → `search_content`. -/
def searchContentRef (o : SearchOracle) (r : ContentRef) : Option SearchResult :=
  match r.type with
  | ContentType.book => o.book r.description
  | ContentType.video => o.video r.description
  | ContentType.item => o.item r.description
  | _ => o.contentGeneric r.description

/-- An entry of the `people` / `organisations` lists of the dict returned by
`process_transcript_references` (lines 417-421, 431-435). -/
structure NamedEntry where
  name : String
  web_url : String
  image_url : String
deriving DecidableEq, Repr

/-- An entry of the `content` list (lines 402-407). -/
structure ContentEntry where
  description : String
  type : ContentType
  web_url : String
  image_url : String
deriving DecidableEq, Repr

/-- An entry of the `events` list (lines 445-449). -/
structure EventEntry where
  description : String
  web_url : String
  image_url : String
deriving DecidableEq, Repr

/-- The dict returned by `process_transcript_references` (lines 382-387). -/
structure RefDict where
  people : List NamedEntry
  organisations : List NamedEntry
  content : List ContentEntry
  events : List EventEntry
deriving DecidableEq, Repr

/-- The initial `result` dict (perplexity.py lines 382-387). -/
def emptyRefDict : RefDict := ⟨[], [], [], []⟩

/-- Priority 4 of `process_transcript_references` (lines 441-452): search the
first extracted event; on success return it as the sole entry, on an
exception fall through to the final `return result` (line 454). -/
def processEvents (o : SearchOracle) (refs : TranscriptRefs) : RefDict :=
  match refs.events with
  | e :: _ =>
    match o.event e with
    | some s => { emptyRefDict with events := [⟨e, s.web_url, s.image_url⟩] }
    | none => emptyRefDict
  | [] => emptyRefDict

/-- Priority 3 (lines 427-438): organisations, falling through to events. -/
def processOrgs (o : SearchOracle) (refs : TranscriptRefs) : RefDict :=
  match refs.organisations with
  | g :: _ =>
    match o.organisation g with
    | some s => { emptyRefDict with organisations := [⟨g, s.web_url, s.image_url⟩] }
    | none => processEvents o refs
  | [] => processEvents o refs

/-- Priority 2 (lines 413-424): people, falling through to organisations. -/
def processPeople (o : SearchOracle) (refs : TranscriptRefs) : RefDict :=
  match refs.people with
  | p :: _ =>
    match o.person p with
    | some s => { emptyRefDict with people := [⟨p, s.web_url, s.image_url⟩] }
    | none => processOrgs o refs
  | [] => processOrgs o refs

/-- From `process_transcript_references` (perplexity.py lines 369-454): extract
references (resolved into `refs`), then search only the first reference of
the highest-priority non-empty category, in the order content, people,
organisations, events; a search that raises falls through to the next
category; at most one list of the returned dict is populated, with the
single searched reference. -/
def process_transcript_references (o : SearchOracle) (refs : TranscriptRefs) : RefDict :=
  match refs.content with
  | c :: _ =>
    match searchContentRef o c with
    | some s =>
      { emptyRefDict with content := [⟨c.description, c.type, s.web_url, s.image_url⟩] }
    | none => processPeople o refs
  | [] => processPeople o refs

/-- String of a content type, as interpolated by worker.py line 228
(`f"{content['description']} ({content['type']})"`). -/
def contentTypeStr : ContentType → String
  | ContentType.book => "book"
  | ContentType.article => "article"
  | ContentType.video => "video"
  | ContentType.item => "item"
  | ContentType.other => "other"

/-- Step 2 of `process_clip` (worker.py lines 205-238): scan the dict in the
order people, organisations, content, events and take the first entry whose
`image_url` is truthy (a non-empty string), returning `(image_url,
reference_name)`. -/
def choose_image (d : RefDict) : Option (String × String) :=
  match d.people.find? (fun p => p.image_url != "") with
  | some p => some (p.image_url, p.name)
  | none =>
    match d.organisations.find? (fun g => g.image_url != "") with
    | some g => some (g.image_url, g.name)
    | none =>
      match d.content.find? (fun c => c.image_url != "") with
      | some c => some (c.image_url, c.description ++ " (" ++ contentTypeStr c.type ++ ")")
      | none =>
        match d.events.find? (fun e => e.image_url != "") with
        | some e => some (e.image_url, e.description)
        | none => none

/-- The image URL `process_clip` ends up selecting for a transcript whose
extraction resolved to `refs`: worker.py step 2 applied to
`process_transcript_references`. -/
def clipSelectedImage (o : SearchOracle) (refs : TranscriptRefs) : Option String :=
  (choose_image (process_transcript_references o refs)).map Prod.fst

/-- The image of a search result when it is usable (non-empty), else none. -/
def usableImage : Option SearchResult → Option String
  | some r => if r.image_url ≠ "" then some r.image_url else none
  | none => none

/-- Modelled from the spec's words (for claim C5): the image of the first
usable reference under the fixed priority content before people before
organisations before events, where a reference is usable when its search
yields an image.  This is the spec-side definition to be compared with
`clipSelectedImage`. -/
def spec_first_usable_image (o : SearchOracle) (refs : TranscriptRefs) : Option String :=
  match refs.content.findSome? (fun c => usableImage (searchContentRef o c)) with
  | some u => some u
  | none =>
    match refs.people.findSome? (fun p => usableImage (o.person p)) with
    | some u => some u
    | none =>
      match refs.organisations.findSome? (fun g => usableImage (o.organisation g)) with
      | some u => some u
      | none => refs.events.findSome? (fun e => usableImage (o.event e))

/-- The search result of the first extracted event whose search succeeds
(only the first event is searched). -/
def firstSearchedEvents (o : SearchOracle) (refs : TranscriptRefs) : Option SearchResult :=
  match refs.events with
  | e :: _ => o.event e
  | [] => none

/-- As `firstSearchedEvents`, one priority level up: organisations, falling
through to events on a failed search. -/
def firstSearchedOrgs (o : SearchOracle) (refs : TranscriptRefs) : Option SearchResult :=
  match refs.organisations with
  | g :: _ =>
    match o.organisation g with
    | some s => some s
    | none => firstSearchedEvents o refs
  | [] => firstSearchedEvents o refs

/-- People, falling through to organisations on a failed search. -/
def firstSearchedPeople (o : SearchOracle) (refs : TranscriptRefs) : Option SearchResult :=
  match refs.people with
  | p :: _ =>
    match o.person p with
    | some s => some s
    | none => firstSearchedOrgs o refs
  | [] => firstSearchedOrgs o refs

/-- The search result of the first reference, in priority order content,
people, organisations, events, whose search succeeds — searching only the
first extracted reference of each category, as the code does. -/
def first_searched (o : SearchOracle) (refs : TranscriptRefs) : Option SearchResult :=
  match refs.content with
  | c :: _ =>
    match searchContentRef o c with
    | some s => some s
    | none => firstSearchedPeople o refs
  | [] => firstSearchedPeople o refs

/-- The image the pipeline will actually use, described directly: the image
URL of the first successfully searched reference (priority order content,
people, organisations, events, searching only the head of each category,
with fall-through on a raised search), provided that image URL is
non-empty; `none` otherwise — in particular, when the committed reference's
search succeeded but returned an empty image URL, no lower-priority
reference is consulted. -/
def imageOfFirstSearched (o : SearchOracle) (refs : TranscriptRefs) : Option String :=
  match first_searched o refs with
  | some s => if s.image_url = "" then none else some s.image_url
  | none => none

/-- Number of non-empty lists in a returned dict. -/
def nonemptyListCount (d : RefDict) : ℕ :=
  (if d.people = [] then 0 else 1) + (if d.organisations = [] then 0 else 1) +
    (if d.content = [] then 0 else 1) + (if d.events = [] then 0 else 1)

/-- Shape of the dict returned by `process_transcript_references`: at most
one of the four lists is non-empty, and every list has at most one entry. -/
def atMostOneSingleton (d : RefDict) : Prop :=
  nonemptyListCount d ≤ 1 ∧ d.people.length ≤ 1 ∧ d.organisations.length ≤ 1 ∧
    d.content.length ≤ 1 ∧ d.events.length ≤ 1

/-! ## The job ledger

One job's slice of the Redis store, as read and written by
`src/app/routes/jobs.py` and the three task handlers of `src/app/worker.py`.
`job:{id}:clip:{idx}:has_replacement` holds the string `"true"` or
`"false"`; it is modelled as `Option Bool` (`none` = key absent).  The
number of `stitch_video` enqueues is recorded to state the fan-in claims. -/

structure Ledger where
  status : String
  total : ℕ
  done : ℕ
  stitchEnqueued : ℕ
  used : List String
  clips : ℕ → Option Bool
  clipErr : ℕ → Option String
  finalUrl : Option String
  jobErr : Option String

/-- Resolution of the external, non-ledger calls of one `process_clip`
execution (worker.py lines 158-335).  These calls never touch the shared
ledger, so their outcome can be fixed up front:
* `downloadFail`: the initial clip download (line 175) raises, reaching the
  outer catch-all (lines 314-327);
* `transcribeFail`: transcription fails all retries (handler lines 184-198);
* `noImage`: transcription succeeds but no reference with a truthy image URL
  is found — including a `process_transcript_references` exception, which
  sets `image_url = None` (lines 239-241, 300-302);
* `image url buildOk`: a reference with image `url` is found; `buildOk` says
  whether the replacement construction (lines 253-294: uploads, image
  download, audio extraction, composition) succeeds or raises into the
  handler at lines 295-299. -/
inductive ClipOutcome where
  | downloadFail
  | transcribeFail
  | noImage
  | image (url : String) (buildOk : Bool)
deriving DecidableEq, Repr

/-- Control locations of one `process_clip` task between its atomic ledger
operations.  Each location performs exactly one step; locals needed later
(the image URL, the value returned by `INCR`, the total read back) are
carried in the location.
* `start`: dispatch on the resolved outcome (no ledger access);
* `readUsed url buildOk`: the `SMEMBERS job:{id}:used_images` read and
  membership test (lines 246-249);
* `doAdd url buildOk`: `SADD job:{id}:used_images url` (line 257);
* `building url ok`: the external replacement construction (lines 259-292);
* `wClip b e`: `SET job:{id}:clip:{idx}:has_replacement b`, followed by the
  error write `e` when present (lines 187/251/294/298/319);
* `wErr e`: `SET job:{id}:clip:{idx}:error e` (lines 188/299/320);
* `fanIncr`: `INCR job:{id}:done`, returning the new value (lines 191/305/321);
* `fanRead d`: `GET job:{id}:total` (lines 192/306/322);
* `fanDecide d t`: `if done == total: enqueue stitch_video`
  (lines 195-196/310-311/324-325);
* `fin d t`: terminated, with its final locals kept as ghost state. -/
inductive ClipPC where
  | start (oc : ClipOutcome)
  | readUsed (url : String) (buildOk : Bool)
  | doAdd (url : String) (buildOk : Bool)
  | building (url : String) (ok : Bool)
  | wClip (b : Bool) (e : Option String)
  | wErr (e : String)
  | fanIncr
  | fanRead (d : ℕ)
  | fanDecide (d t : ℕ)
  | fin (d t : ℕ)
deriving DecidableEq, Repr

/-- Observable events of one atomic step of `process_clip`. -/
inductive Ev where
  | dispatch
  | evReadUsed (url : String) (present : Bool)
  | evSadd (url : String)
  | evBuild (ok : Bool)
  | evSetClip (idx : ℕ) (b : Bool)
  | evSetClipErr (idx : ℕ) (e : String)
  | evIncr (newVal : ℕ)
  | evReadTotal (t : ℕ)
  | evEnqueueStitch
  | evSkip
deriving DecidableEq, Repr

/-- One atomic step of a `process_clip` task for clip `idx`: the next
control location, the updated ledger, and the event observed.
The branch structure mirrors worker.py:
* a caught transcription failure writes `has_replacement=false` then
  `error="transcription_failed"` (lines 187-188);
* the outer catch-all writes `has_replacement=false` then
  `error="critical_failure"` (lines 319-320);
* no image found writes `has_replacement=false` only (line 302);
* an already-used image writes `has_replacement=false` only (lines 249-251);
* a fresh image is first `SADD`ed (line 257), then the replacement is built;
  on success `has_replacement=true` (line 294), on failure
  `has_replacement=false` then `error="replacement_failed"` (lines 298-299);
* every branch then runs the fan-in: `INCR done`, `GET total`, and when the
  two are equal one `enqueue_job('stitch_video')` (lines 304-312). -/
def clipStep (idx : ℕ) : ClipPC → Ledger → ClipPC × Ledger × Ev
  | ClipPC.start oc, L =>
    match oc with
    | ClipOutcome.downloadFail =>
      (ClipPC.wClip false (some "critical_failure"), L, Ev.dispatch)
    | ClipOutcome.transcribeFail =>
      (ClipPC.wClip false (some "transcription_failed"), L, Ev.dispatch)
    | ClipOutcome.noImage => (ClipPC.wClip false none, L, Ev.dispatch)
    | ClipOutcome.image url buildOk => (ClipPC.readUsed url buildOk, L, Ev.dispatch)
  | ClipPC.readUsed url buildOk, L =>
    if url ∈ L.used then
      (ClipPC.wClip false none, L, Ev.evReadUsed url true)
    else
      (ClipPC.doAdd url buildOk, L, Ev.evReadUsed url false)
  | ClipPC.doAdd url buildOk, L =>
    (ClipPC.building url buildOk, { L with used := L.used.insert url }, Ev.evSadd url)
  | ClipPC.building _ ok, L =>
    if ok then
      (ClipPC.wClip true none, L, Ev.evBuild true)
    else
      (ClipPC.wClip false (some "replacement_failed"), L, Ev.evBuild false)
  | ClipPC.wClip b e, L =>
    ((match e with
      | some s => ClipPC.wErr s
      | none => ClipPC.fanIncr),
      { L with clips := fun j => if j = idx then some b else L.clips j },
      Ev.evSetClip idx b)
  | ClipPC.wErr e, L =>
    (ClipPC.fanIncr,
      { L with clipErr := fun j => if j = idx then some e else L.clipErr j },
      Ev.evSetClipErr idx e)
  | ClipPC.fanIncr, L =>
    (ClipPC.fanRead (L.done + 1), { L with done := L.done + 1 }, Ev.evIncr (L.done + 1))
  | ClipPC.fanRead d, L => (ClipPC.fanDecide d L.total, L, Ev.evReadTotal L.total)
  | ClipPC.fanDecide d t, L =>
    if d = t then
      (ClipPC.fin d t, { L with stitchEnqueued := L.stitchEnqueued + 1 }, Ev.evEnqueueStitch)
    else
      (ClipPC.fin d t, L, Ev.evSkip)
  | ClipPC.fin d t, L => (ClipPC.fin d t, L, Ev.evSkip)

/-- Whether a task has terminated. -/
def isFin : ClipPC → Bool
  | ClipPC.fin _ _ => true
  | _ => false

/-- One accumulator step for running a single task: a terminated task is
left unchanged, otherwise its next atomic operation executes and its event
is appended. -/
def stepAcc (idx : ℕ) : ClipPC × Ledger × List Ev → ClipPC × Ledger × List Ev
  | (p, L, evs) =>
    if isFin p then (p, L, evs)
    else
      let r := clipStep idx p L
      (r.1, r.2.1, evs ++ [r.2.2])

/-- Run a single `process_clip` task to completion, uninterrupted by other
tasks: every path of `clipStep` reaches the absorbing `fin` within 9 atomic
steps, so 10 applications suffice.  Returns the final location, the final
ledger and the event trace. -/
def runTask (idx : ℕ) (p : ClipPC) (L : Ledger) : ClipPC × Ledger × List Ev :=
  stepAcc idx (stepAcc idx (stepAcc idx (stepAcc idx (stepAcc idx (stepAcc idx
    (stepAcc idx (stepAcc idx (stepAcc idx (stepAcc idx (p, L, []))))))))))

/-- The interleaved system: the shared ledger plus the control location of
each of the `n` concurrent `process_clip` tasks of one job. -/
structure Sys (n : ℕ) where
  ledger : Ledger
  tp : Fin n → ClipPC

/-- One scheduler step: task `i` executes its next atomic operation. -/
def sysStep {n : ℕ} (idxOf : Fin n → ℕ) (s : Sys n) (i : Fin n) : Sys n × (Fin n × Ev) :=
  let r := clipStep (idxOf i) (s.tp i) s.ledger
  (⟨r.2.1, Function.update s.tp i r.1⟩, (i, r.2.2))

/-- Run the system under a schedule (an arbitrary interleaving): at each
schedule entry the named task performs one atomic step.  Returns the final
system and the event trace tagged by task. -/
def runSys {n : ℕ} (idxOf : Fin n → ℕ) (s : Sys n) :
    List (Fin n) → Sys n × List (Fin n × Ev)
  | [] => (s, [])
  | i :: rest =>
    let r := sysStep idxOf s i
    let rr := runSys idxOf r.1 rest
    (rr.1, r.2 :: rr.2)

/-- Ledger state when the `process_clip` tasks start: `split_video` has set
`status` to `"processing"` (line 95) and `job:{id}:total` to `n`
(line 132), `job:{id}:done` is `0` from job creation (jobs.py line 31), and
no `stitch_video` task has been enqueued. -/
def ledgerAfterSplit (n : ℕ) : Ledger :=
  ⟨"processing", n, 0, 0, [], fun _ => none, fun _ => none, none, none⟩

/-- Initial system: every task at `start` with its resolved outcome. -/
def initSys (n : ℕ) (oc : Fin n → ClipOutcome) : Sys n :=
  ⟨ledgerAfterSplit n, fun i => ClipPC.start (oc i)⟩

/-- Whether an event is an `INCR job:{id}:done`. -/
def isIncrEv : Ev → Bool
  | Ev.evIncr _ => true
  | _ => false

/-- Number of `INCR job:{id}:done` operations performed by task `i` in a
trace. -/
def countIncr {n : ℕ} (i : Fin n) (tr : List (Fin n × Ev)) : ℕ :=
  (tr.filter (fun e => e.1 == i && isIncrEv e.2)).length

/-- Phase of a task: `1` once its `INCR job:{id}:done` has executed. -/
def phaseN : ClipPC → ℕ
  | ClipPC.fanRead _ => 1
  | ClipPC.fanDecide _ _ => 1
  | ClipPC.fin _ _ => 1
  | _ => 0

/-- The value the task's `INCR` returned, once it has executed. -/
def drawn : ClipPC → Option ℕ
  | ClipPC.fanRead d => some d
  | ClipPC.fanDecide d _ => some d
  | ClipPC.fin d _ => some d
  | _ => none

/-- The value the task read back from `job:{id}:total`, once read. -/
def readTotalVal : ClipPC → Option ℕ
  | ClipPC.fanDecide _ t => some t
  | ClipPC.fin _ t => some t
  | _ => none

/-- Whether the task has already executed its `has_replacement` write. -/
def wroteClip : ClipPC → Bool
  | ClipPC.wErr _ => true
  | ClipPC.fanIncr => true
  | ClipPC.fanRead _ => true
  | ClipPC.fanDecide _ _ => true
  | ClipPC.fin _ _ => true
  | _ => false

/-- Indicator that a task has terminated having enqueued `stitch_video`:
with `total = n` throughout, that is exactly the terminal location
`fin n n`. -/
def finEnqueued (n : ℕ) (p : ClipPC) : ℕ :=
  if p = ClipPC.fin n n then 1 else 0

/-- The inductive invariant of the fan-in, preserved by every atomic step of
every task: the stored total never changes; the done counter equals the
number of tasks whose `INCR` has executed; the values returned by the
executed `INCR`s are pairwise distinct and lie in `[1, done]`; every total
read back equals `n`; the number of `stitch_video` enqueues equals the
number of tasks that terminated at `fin n n`; and a task past its
`has_replacement` write has that key set. -/
def SysInv (n : ℕ) (idxOf : Fin n → ℕ) (s : Sys n) : Prop :=
  s.ledger.total = n ∧
  s.ledger.done = ∑ i : Fin n, phaseN (s.tp i) ∧
  (∀ i : Fin n, ∀ d, drawn (s.tp i) = some d → 1 ≤ d ∧ d ≤ s.ledger.done) ∧
  (∀ i j : Fin n, ∀ d, drawn (s.tp i) = some d → drawn (s.tp j) = some d → i = j) ∧
  (∀ i : Fin n, ∀ t, readTotalVal (s.tp i) = some t → t = n) ∧
  s.ledger.stitchEnqueued = ∑ i : Fin n, finEnqueued n (s.tp i) ∧
  (∀ i : Fin n, wroteClip (s.tp i) = true → ∃ b, s.ledger.clips (idxOf i) = some b)

/-! ## The stitch stage (`src/app/worker.py::stitch_video`, lines 337-403) -/

/-- Resolution of the external calls of one `stitch_video` execution: all of
them (clip downloads, concatenation, final upload, lines 349-380) happen
after the `status="stitching"` write and before the `final_url` write;
`ok u` means they all succeed and `get_public_url` returned `u`, `fail m`
means one of them raised `m`. -/
inductive StitchOutcome where
  | ok (finalUrl : String)
  | fail (msg : String)
deriving DecidableEq, Repr

/-- Control locations of `stitch_video` between its ledger writes:
* `setStitching`: `SET job:{id}:status "stitching"` (line 347);
* `body`: reads `total` and the per-clip flags, downloads, concatenates and
  uploads (lines 349-380) — no ledger write;
* `setFinal u`: `SET job:{id}:final_url u` (line 381);
* `setFinished`: `SET job:{id}:status "finished"` (line 382);
* `setFailed m`: `SET job:{id}:status "failed"` (line 389);
* `setErr m`: `SET job:{id}:error m` (line 390);
* `sFin`: terminated. -/
inductive StitchPC where
  | setStitching (oc : StitchOutcome)
  | body (oc : StitchOutcome)
  | setFinal (u : String)
  | setFinished
  | setFailed (msg : String)
  | setErr (msg : String)
  | sFin
deriving DecidableEq, Repr

/-- One atomic step of `stitch_video`. -/
def stitchStep : StitchPC → Ledger → StitchPC × Ledger
  | StitchPC.setStitching oc, L => (StitchPC.body oc, { L with status := "stitching" })
  | StitchPC.body oc, L =>
    match oc with
    | StitchOutcome.ok u => (StitchPC.setFinal u, L)
    | StitchOutcome.fail m => (StitchPC.setFailed m, L)
  | StitchPC.setFinal u, L => (StitchPC.setFinished, { L with finalUrl := some u })
  | StitchPC.setFinished, L => (StitchPC.sFin, { L with status := "finished" })
  | StitchPC.setFailed m, L => (StitchPC.setErr m, { L with status := "failed" })
  | StitchPC.setErr m, L => (StitchPC.sFin, { L with jobErr := some m })
  | StitchPC.sFin, L => (StitchPC.sFin, L)

/-- The ledger states traversed by a `stitch_video` execution: the initial
state followed by the state after each atomic step.  Both paths reach the
absorbing `sFin` within 4 steps, so five states cover every execution. -/
def stitchStates (oc : StitchOutcome) (L : Ledger) : List (StitchPC × Ledger) :=
  let s0 := (StitchPC.setStitching oc, L)
  let s1 := stitchStep s0.1 s0.2
  let s2 := stitchStep s1.1 s1.2
  let s3 := stitchStep s2.1 s2.2
  let s4 := stitchStep s3.1 s3.2
  [s0, s1, s2, s3, s4]

/-- Final ledger of a `stitch_video` execution. -/
def stitchFinal (oc : StitchOutcome) (L : Ledger) : Ledger :=
  ((stitchStates oc L).getLastD (StitchPC.sFin, L)).2

/-! ## The status route (`src/app/routes/jobs.py`, lines 67-111) -/

/-- The `data` object returned by `GET /jobs/{id}` for an existing job. -/
structure StatusResponse where
  job_id : String
  status : String
  total : ℕ
  done : ℕ
  final_url : Option String
deriving DecidableEq, Repr

/-- The route `get_job_status` (jobs.py lines 67-100) for a job whose status key
exists: it reports status and progress, and attaches `final_url` — built
deterministically from the storage configuration, not read from the ledger —
exactly when the stored status is `"finished"` (lines 96-97). -/
def get_job_status_data (supabaseUrl bucket jobId : String) (L : Ledger) : StatusResponse :=
  ⟨jobId, L.status, L.total, L.done,
    if L.status = "finished" then
      some (supabaseUrl ++ "/storage/v1/object/public/" ++ bucket ++
        "/videos/" ++ jobId ++ "/final.mp4")
    else none⟩

/-! ## Time-to-live of ledger writes (claim C8)

Every Redis `SET` issued by the orchestrator, with the expiry argument it
passes.  In Redis, `SET` without `EX` also removes any TTL the key had;
`INCR` and `SADD` (the only non-`SET` writes, worker.py lines 191/305/321
and 257) never attach a TTL either. -/

structure LedgerWrite where
  key : String
  value : String
  ttlSeconds : Option ℕ
deriving DecidableEq, Repr

/-- The four writes of `create_job` (jobs.py lines 28-31), each with
`ex=172800`. -/
def create_job_writes (jobId videoPath : String) : List LedgerWrite :=
  [⟨"job:" ++ jobId ++ ":status", "queued", some 172800⟩,
   ⟨"job:" ++ jobId ++ ":video_path", videoPath, some 172800⟩,
   ⟨"job:" ++ jobId ++ ":total", "0", some 172800⟩,
   ⟨"job:" ++ jobId ++ ":done", "0", some 172800⟩]

/-- Every `redis_client.set` in `src/app/worker.py`, by handler and line:
`split_video` lines 95, 132, 142-143; `process_clip` lines 187-188,
251, 294, 298-299, 302, 319-320; `stitch_video` lines 347, 381-382,
389-390.  None passes an expiry. -/
def worker_ledger_writes (jobId idxStr numChunksStr errStr finalUrl : String) :
    List LedgerWrite :=
  [⟨"job:" ++ jobId ++ ":status", "processing", none⟩,
   ⟨"job:" ++ jobId ++ ":total", numChunksStr, none⟩,
   ⟨"job:" ++ jobId ++ ":status", "failed", none⟩,
   ⟨"job:" ++ jobId ++ ":error", errStr, none⟩,
   ⟨"job:" ++ jobId ++ ":clip:" ++ idxStr ++ ":has_replacement", "false", none⟩,
   ⟨"job:" ++ jobId ++ ":clip:" ++ idxStr ++ ":error", "transcription_failed", none⟩,
   ⟨"job:" ++ jobId ++ ":clip:" ++ idxStr ++ ":has_replacement", "true", none⟩,
   ⟨"job:" ++ jobId ++ ":clip:" ++ idxStr ++ ":error", "replacement_failed", none⟩,
   ⟨"job:" ++ jobId ++ ":clip:" ++ idxStr ++ ":error", "critical_failure", none⟩,
   ⟨"job:" ++ jobId ++ ":status", "stitching", none⟩,
   ⟨"job:" ++ jobId ++ ":final_url", finalUrl, none⟩,
   ⟨"job:" ++ jobId ++ ":status", "finished", none⟩]

/-! # Theorems -/

/-! ## Clip counting -/

/-- The count computed by `video.py::split_video` is the ceiling of
duration over chunk duration, for a nonnegative duration and a positive
chunk duration. -/
theorem num_clips_eq_ceil (T c : ℚ) (hT : 0 ≤ T) (hc : 0 < c) :
    num_clips T c = ⌈T / c⌉ := by
  unfold num_clips
  have hrem : T - c * ⌊T / c⌋ = c * Int.fract (T / c) := by
    rw [Int.fract]
    have : c * (T / c) = T := by field_simp
    rw [mul_sub, this]
  rw [hrem]
  by_cases h : Int.fract (T / c) = 0
  · have hint : ((⌊T / c⌋ : ℤ) : ℚ) = T / c := by
      have hf := Int.floor_add_fract (T / c)
      rw [h, add_zero] at hf
      exact hf
    rw [h, mul_zero, if_neg (lt_irrefl 0), add_zero, ← hint, Int.ceil_intCast,
      Int.floor_intCast]
  · have hpos : 0 < Int.fract (T / c) :=
      lt_of_le_of_ne (Int.fract_nonneg _) (Ne.symm h)
    rw [if_pos (mul_pos hc hpos)]
    have hne : T / c ≠ ((⌊T / c⌋ : ℤ) : ℚ) := Int.fract_pos.mp hpos
    have hlt : ⌊T / c⌋ < ⌈T / c⌉ := by
      rw [Int.lt_ceil]
      exact lt_of_le_of_ne (Int.floor_le _) (Ne.symm hne)
    have hle : ⌈T / c⌉ ≤ ⌊T / c⌋ + 1 := Int.ceil_le_floor_add_one _
    omega

/-- A witness instance for `num_clips_eq_ceil` at `T = 45`, `c = 20`. -/
theorem num_clips_eq_ceil_witness :
    (0:ℚ) ≤ 45 ∧ (0:ℚ) < 20 ∧ num_clips 45 20 = ⌈(45:ℚ) / 20⌉ :=
  ⟨by norm_num, by norm_num, num_clips_eq_ceil 45 20 (by norm_num) (by norm_num)⟩

/-- C6: the claim is contradicted by the code's own default `max_duration`.
`worker.split_video` is enqueued by `create_job` with only the job id, so
the defaults `chunk_duration=20` and `max_duration=40` apply (the docstring
says "default 120 = 2 minutes", but the signature says 40), and a
45-second source is first trimmed to 40 seconds: the split stage produces
2 clips and records `total=2`.  Without the truncation, splitting a
45-second video into 20-second chunks does give 3 clips
(`num_clips 45 20 = 3`), which is what the claim and the spec scenario
expect. -/
theorem c6_split_stage_on_45s_default_gives_2_clips :
    split_stage_clip_count 45 chunk_duration_default max_duration_default = 2 ∧
    split_stage_clip_count 45 chunk_duration_default max_duration_default ≠ 3 ∧
    num_clips 45 20 = 3 := by
  refine ⟨?_, ?_, ?_⟩ <;>
    norm_num [split_stage_clip_count, num_clips, chunk_duration_default,
      max_duration_default]

/-! ## Shape of `process_transcript_references` results -/

theorem atMostOne_processEvents (o : SearchOracle) (refs : TranscriptRefs) :
    atMostOneSingleton (processEvents o refs) := by
  unfold processEvents
  cases he : refs.events with
  | nil => simp [he, atMostOneSingleton, emptyRefDict, nonemptyListCount]
  | cons e rest =>
    cases hs : o.event e <;>
      simp [he, hs, atMostOneSingleton, emptyRefDict, nonemptyListCount]

theorem atMostOne_processOrgs (o : SearchOracle) (refs : TranscriptRefs) :
    atMostOneSingleton (processOrgs o refs) := by
  unfold processOrgs
  cases hg : refs.organisations with
  | nil => simpa [hg] using atMostOne_processEvents o refs
  | cons g rest =>
    cases hs : o.organisation g with
    | none => simpa [hg, hs] using atMostOne_processEvents o refs
    | some s => simp [hg, hs, atMostOneSingleton, emptyRefDict, nonemptyListCount]

theorem atMostOne_processPeople (o : SearchOracle) (refs : TranscriptRefs) :
    atMostOneSingleton (processPeople o refs) := by
  unfold processPeople
  cases hp : refs.people with
  | nil => simpa [hp] using atMostOne_processOrgs o refs
  | cons p rest =>
    cases hs : o.person p with
    | none => simpa [hp, hs] using atMostOne_processOrgs o refs
    | some s => simp [hp, hs, atMostOneSingleton, emptyRefDict, nonemptyListCount]

/-! ## Image selection priority -/

theorem choose_processEvents (o : SearchOracle) (refs : TranscriptRefs) :
    (choose_image (processEvents o refs)).map Prod.fst =
      (match firstSearchedEvents o refs with
        | some s => if s.image_url = "" then none else some s.image_url
        | none => none) := by
  unfold processEvents firstSearchedEvents
  cases he : refs.events with
  | nil => simp [he, choose_image, emptyRefDict]
  | cons e rest =>
    cases hs : o.event e with
    | none => simp [he, hs, choose_image, emptyRefDict]
    | some s =>
      by_cases himg : s.image_url = "" <;>
        simp [he, hs, himg, choose_image, emptyRefDict, List.find?]

theorem choose_processOrgs (o : SearchOracle) (refs : TranscriptRefs) :
    (choose_image (processOrgs o refs)).map Prod.fst =
      (match firstSearchedOrgs o refs with
        | some s => if s.image_url = "" then none else some s.image_url
        | none => none) := by
  unfold processOrgs firstSearchedOrgs
  cases hg : refs.organisations with
  | nil => simpa [hg] using choose_processEvents o refs
  | cons g rest =>
    cases hs : o.organisation g with
    | none => simpa [hg, hs] using choose_processEvents o refs
    | some s =>
      by_cases himg : s.image_url = "" <;>
        simp [hg, hs, himg, choose_image, emptyRefDict, List.find?]

theorem choose_processPeople (o : SearchOracle) (refs : TranscriptRefs) :
    (choose_image (processPeople o refs)).map Prod.fst =
      (match firstSearchedPeople o refs with
        | some s => if s.image_url = "" then none else some s.image_url
        | none => none) := by
  unfold processPeople firstSearchedPeople
  cases hp : refs.people with
  | nil => simpa [hp] using choose_processOrgs o refs
  | cons p rest =>
    cases hs : o.person p with
    | none => simpa [hp, hs] using choose_processOrgs o refs
    | some s =>
      by_cases himg : s.image_url = "" <;>
        simp [hp, hs, himg, choose_image, emptyRefDict, List.find?]

/-- C5, counterexample to the claim as stated: the transcript extraction
found a book "X" (content) and a person "P"; the book search succeeds but
returns an empty image URL, while the person search returns a usable image.
The first usable reference under the claimed priority is the person, yet
the code commits to the book, finds its image empty, never consults the
person, and selects no image at all. -/
theorem c5_counterexample_committed_ref_without_image :
    clipSelectedImage
        ⟨fun _ => some ⟨"https://w", ""⟩, fun _ => none, fun _ => none, fun _ => none,
         fun _ => some ⟨"https://w2", "https://img"⟩, fun _ => none, fun _ => none⟩
        ⟨[], ["P"], [⟨"X", ContentType.book⟩], []⟩ = none ∧
    spec_first_usable_image
        ⟨fun _ => some ⟨"https://w", ""⟩, fun _ => none, fun _ => none, fun _ => none,
         fun _ => some ⟨"https://w2", "https://img"⟩, fun _ => none, fun _ => none⟩
        ⟨[], ["P"], [⟨"X", ContentType.book⟩], []⟩ = some "https://img" ∧
    clipSelectedImage
        ⟨fun _ => some ⟨"https://w", ""⟩, fun _ => none, fun _ => none, fun _ => none,
         fun _ => some ⟨"https://w2", "https://img"⟩, fun _ => none, fun _ => none⟩
        ⟨[], ["P"], [⟨"X", ContentType.book⟩], []⟩ ≠
      spec_first_usable_image
        ⟨fun _ => some ⟨"https://w", ""⟩, fun _ => none, fun _ => none, fun _ => none,
         fun _ => some ⟨"https://w2", "https://img"⟩, fun _ => none, fun _ => none⟩
        ⟨[], ["P"], [⟨"X", ContentType.book⟩], []⟩ := by
  refine ⟨by rfl, by rfl, by decide⟩

/-- C5 as amended: the image actually selected for a clip is the image of
the first successfully searched reference under the priority content,
people, organisations, events — searching only the first extracted
reference of the highest-priority non-empty category, with fall-through to
the next category only when a search raises — provided that reference's
image URL is non-empty; when the committed reference's search succeeds but
carries no image, no lower-priority reference is consulted and no image is
selected (so the selected reference is not always the first usable one). -/
theorem c5_amended_selected_image (o : SearchOracle) (refs : TranscriptRefs) :
    clipSelectedImage o refs = imageOfFirstSearched o refs := by
  unfold clipSelectedImage imageOfFirstSearched process_transcript_references first_searched
  cases hc : refs.content with
  | nil => simpa [hc] using choose_processPeople o refs
  | cons c rest =>
    cases hs : searchContentRef o c with
    | none => simpa [hc, hs] using choose_processPeople o refs
    | some s =>
      by_cases himg : s.image_url = "" <;>
        simp [hc, hs, himg, choose_image, emptyRefDict, List.find?]

/-- C10, counterexample to the claim as stated: with a transcript extraction
that found a content reference (a book "X") and a person "P", where the
book search raises and the person search succeeds, the code falls through
to the person, so the returned dict is not empty even though the search for
the single highest-priority reference failed — refuting "on extraction or
search failure all four lists are empty" and "only the single
highest-priority extracted reference is searched". -/
theorem c10_counterexample_search_failure_falls_through :
    searchContentRef
        ⟨fun _ => none, fun _ => none, fun _ => none, fun _ => none,
         fun _ => some ⟨"https://w", "https://img"⟩, fun _ => none, fun _ => none⟩
        ⟨"X", ContentType.book⟩ = none ∧
    (process_transcript_references
        ⟨fun _ => none, fun _ => none, fun _ => none, fun _ => none,
         fun _ => some ⟨"https://w", "https://img"⟩, fun _ => none, fun _ => none⟩
        ⟨[], ["P"], [⟨"X", ContentType.book⟩], []⟩).people
      = [⟨"P", "https://w", "https://img"⟩] := by
  constructor <;> rfl

/-- C10 as amended: the returned dict always has at most one non-empty list,
holding exactly the one searched reference; the categories are tried in
priority order content, people, organisations, events, only the first
extracted reference of a category is searched, and a failed search falls
through to the next category rather than emptying the result. -/
theorem c10_amended_at_most_one_singleton (o : SearchOracle) (refs : TranscriptRefs) :
    atMostOneSingleton (process_transcript_references o refs) := by
  unfold process_transcript_references
  cases hc : refs.content with
  | nil => simpa [hc] using atMostOne_processPeople o refs
  | cons c rest =>
    cases hs : searchContentRef o c with
    | none => simpa [hc, hs] using atMostOne_processPeople o refs
    | some s => simp [hc, hs, atMostOneSingleton, emptyRefDict, nonemptyListCount]

/-! ## Time-to-live of ledger writes -/

/-- C8, counterexample to the claim as stated: the worker's ledger writes
pass no expiry (`redis_client.set` without `ex`), so it is not the case
that every key written by a stage handler carries a time-to-live — e.g. the
`status="processing"` write of `split_video` (worker.py line 95).  A plain
Redis `SET` also removes any TTL the key previously had. -/
theorem c8_counterexample_worker_write_without_ttl :
    ¬ (∀ w ∈ worker_ledger_writes "J" "0" "1" "boom" "https://u",
        w.ttlSeconds.isSome = true) := by decide

/-- C8 as amended: only the four keys written at job creation
(`create_job`, jobs.py lines 28-31) carry a 172800-second expiry; every
ledger write performed by the three worker stage handlers passes no expiry
at all (and, being a plain `SET`, clears any expiry the key had), so a
job's keys do not all carry a bounded time-to-live once the pipeline has
run. -/
theorem c8_amended_only_create_job_writes_carry_ttl
    (jobId videoPath idxStr numChunksStr errStr finalUrl : String) :
    (∀ w ∈ create_job_writes jobId videoPath, w.ttlSeconds = some 172800) ∧
    (∀ w ∈ worker_ledger_writes jobId idxStr numChunksStr errStr finalUrl,
      w.ttlSeconds = none) := by
  constructor
  · intro w hw
    simp only [create_job_writes, List.mem_cons, List.not_mem_nil, or_false] at hw
    rcases hw with h | h | h | h <;> simp [h]
  · intro w hw
    simp only [worker_ledger_writes, List.mem_cons, List.not_mem_nil,
      or_false] at hw
    rcases hw with h | h | h | h | h | h | h | h | h | h | h | h <;> simp [h]

/-- Witness for `c8_amended_only_create_job_writes_carry_ttl` at concrete
arguments. -/
theorem c8_amended_ttl_witness :
    (⟨"job:" ++ "J" ++ ":status", "queued", some 172800⟩ : LedgerWrite).ttlSeconds
        = some 172800 ∧
    (⟨"job:" ++ "J" ++ ":status", "processing", none⟩ : LedgerWrite).ttlSeconds
        = none :=
  ⟨(c8_amended_only_create_job_writes_carry_ttl "J" "v" "0" "1" "e" "u").1 _
      (by decide),
   (c8_amended_only_create_job_writes_carry_ttl "J" "v" "0" "1" "e" "u").2 _
      (by decide)⟩

/-! ## Single-task runs of `process_clip` -/

/-- A step of the task for clip `idx` never touches another clip's
`has_replacement` key. -/
theorem clipStep_clips_frame (idx : ℕ) (p : ClipPC) (L : Ledger) (j : ℕ)
    (hj : j ≠ idx) : (clipStep idx p L).2.1.clips j = L.clips j := by
  cases p with
  | start oc => cases oc <;> simp [clipStep]
  | readUsed url buildOk => by_cases h : url ∈ L.used <;> simp [clipStep, h]
  | building url ok => cases ok <;> simp [clipStep]
  | wClip b e => simp [clipStep, hj]
  | fanDecide d t => by_cases h : d = t <;> simp [clipStep, h]
  | _ => simp [clipStep]

theorem stepAcc_clips_frame (idx : ℕ) (st : ClipPC × Ledger × List Ev) (j : ℕ)
    (hj : j ≠ idx) : (stepAcc idx st).2.1.clips j = st.2.1.clips j := by
  obtain ⟨p, L, evs⟩ := st
  by_cases h : isFin p <;> simp [stepAcc, h, clipStep_clips_frame idx p L j hj]

/-- A full run of the task for clip `idx` leaves every other clip's
`has_replacement` key unchanged. -/
theorem runTask_clips_frame (idx : ℕ) (p : ClipPC) (L : Ledger) (j : ℕ)
    (hj : j ≠ idx) : (runTask idx p L).2.1.clips j = L.clips j := by
  simp only [runTask]
  rw [stepAcc_clips_frame idx _ j hj, stepAcc_clips_frame idx _ j hj,
    stepAcc_clips_frame idx _ j hj, stepAcc_clips_frame idx _ j hj,
    stepAcc_clips_frame idx _ j hj, stepAcc_clips_frame idx _ j hj,
    stepAcc_clips_frame idx _ j hj, stepAcc_clips_frame idx _ j hj,
    stepAcc_clips_frame idx _ j hj, stepAcc_clips_frame idx _ j hj]

/-- The job's used-image set only grows: no step removes a URL. -/
theorem clipStep_used_mono (idx : ℕ) (p : ClipPC) (L : Ledger) (x : String)
    (hx : x ∈ L.used) : x ∈ (clipStep idx p L).2.1.used := by
  cases p with
  | start oc => cases oc <;> simpa [clipStep] using hx
  | readUsed url buildOk => by_cases h : url ∈ L.used <;> simpa [clipStep, h] using hx
  | doAdd url buildOk => simp [clipStep, List.mem_insert_iff, hx]
  | building url ok => cases ok <;> simpa [clipStep] using hx
  | fanDecide d t => by_cases h : d = t <;> simpa [clipStep, h] using hx
  | _ => simpa [clipStep] using hx

theorem stepAcc_used_mono (idx : ℕ) (st : ClipPC × Ledger × List Ev) (x : String)
    (hx : x ∈ st.2.1.used) : x ∈ (stepAcc idx st).2.1.used := by
  obtain ⟨p, L, evs⟩ := st
  by_cases h : isFin p <;> simp [stepAcc, h]
  · exact hx
  · exact clipStep_used_mono idx p L x hx

theorem runTask_used_mono (idx : ℕ) (p : ClipPC) (L : Ledger) (x : String)
    (hx : x ∈ L.used) : x ∈ (runTask idx p L).2.1.used := by
  simp only [runTask]
  exact stepAcc_used_mono idx _ x (stepAcc_used_mono idx _ x
    (stepAcc_used_mono idx _ x (stepAcc_used_mono idx _ x
      (stepAcc_used_mono idx _ x (stepAcc_used_mono idx _ x
        (stepAcc_used_mono idx _ x (stepAcc_used_mono idx _ x
          (stepAcc_used_mono idx _ x (stepAcc_used_mono idx _ x hx)))))))))

/-- A clip whose chosen image URL is already in the job's used-image set
falls back to the original: `has_replacement=false`, and the used set is
unchanged. -/
theorem runTask_image_member (idx : ℕ) (u : String) (b : Bool) (L : Ledger)
    (hu : u ∈ L.used) :
    (runTask idx (ClipPC.start (ClipOutcome.image u b)) L).2.1.clips idx
        = some false ∧
    (runTask idx (ClipPC.start (ClipOutcome.image u b)) L).2.1.used = L.used := by
  by_cases h : L.done + 1 = L.total <;>
    simp [runTask, stepAcc, clipStep, isFin, hu, h]

/-- If a task for clip `idx` with chosen image `u` ends with
`has_replacement=true`, then `u` is in the used-image set afterwards: the
`SADD` precedes the commit. -/
theorem runTask_image_true_implies_used (idx : ℕ) (u : String) (b : Bool)
    (L : Ledger)
    (h : (runTask idx (ClipPC.start (ClipOutcome.image u b)) L).2.1.clips idx
      = some true) :
    u ∈ (runTask idx (ClipPC.start (ClipOutcome.image u b)) L).2.1.used := by
  by_cases hu : u ∈ L.used
  · exact absurd h (by simp [(runTask_image_member idx u b L hu).1])
  · cases b with
    | false =>
      exfalso
      by_cases ht : L.done + 1 = L.total <;>
        simp [runTask, stepAcc, clipStep, isFin, hu, ht] at h
    | true =>
      by_cases ht : L.done + 1 = L.total <;>
        simp [runTask, stepAcc, clipStep, isFin, hu, ht, List.mem_insert_iff]

/-! ## Clip-degradable errors -/

/-- C4, counterexample to the claim as stated: a lookup failure (no usable
reference, including a raised Perplexity search) and an already-used image
both degrade the clip to the original without recording any diagnostic in
`clip[idx].error` — only transcription failures and replacement-construction
failures write the error key. -/
theorem c4_counterexample_no_error_recorded :
    (runTask 0 (ClipPC.start ClipOutcome.noImage) (ledgerAfterSplit 1)).2.1.clips 0
        = some false ∧
    (runTask 0 (ClipPC.start ClipOutcome.noImage) (ledgerAfterSplit 1)).2.1.clipErr 0
        = none ∧
    (runTask 0 (ClipPC.start (ClipOutcome.image "https://img" true))
        (Ledger.mk "processing" 1 0 0 ["https://img"] (fun _ => none) (fun _ => none)
          none none)).2.1.clips 0 = some false ∧
    (runTask 0 (ClipPC.start (ClipOutcome.image "https://img" true))
        (Ledger.mk "processing" 1 0 0 ["https://img"] (fun _ => none) (fun _ => none)
          none none)).2.1.clipErr 0 = none := by decide

/-- C4 as amended: none of the four clip-degradable situations ever touches
the job status (so none can fail the job), and each degrades only the one
clip to `has_replacement=false`; but only transcription failure and
replacement-construction failure record a diagnostic in `clip[idx].error`
(`"transcription_failed"` / `"replacement_failed"`), while lookup failure
and image-already-used leave the clip error key untouched. -/
theorem c4_amended_degradable_errors (L : Ledger) (idx : ℕ) (u : String) (b : Bool) :
    ((runTask idx (ClipPC.start ClipOutcome.transcribeFail) L).2.1.clips idx
        = some false ∧
      (runTask idx (ClipPC.start ClipOutcome.transcribeFail) L).2.1.clipErr idx
        = some "transcription_failed" ∧
      (runTask idx (ClipPC.start ClipOutcome.transcribeFail) L).2.1.status
        = L.status) ∧
    ((runTask idx (ClipPC.start ClipOutcome.noImage) L).2.1.clips idx = some false ∧
      (runTask idx (ClipPC.start ClipOutcome.noImage) L).2.1.clipErr idx
        = L.clipErr idx ∧
      (runTask idx (ClipPC.start ClipOutcome.noImage) L).2.1.status = L.status) ∧
    (u ∈ L.used →
      (runTask idx (ClipPC.start (ClipOutcome.image u b)) L).2.1.clips idx
          = some false ∧
        (runTask idx (ClipPC.start (ClipOutcome.image u b)) L).2.1.clipErr idx
          = L.clipErr idx ∧
        (runTask idx (ClipPC.start (ClipOutcome.image u b)) L).2.1.status
          = L.status) ∧
    (u ∉ L.used →
      (runTask idx (ClipPC.start (ClipOutcome.image u false)) L).2.1.clips idx
          = some false ∧
        (runTask idx (ClipPC.start (ClipOutcome.image u false)) L).2.1.clipErr idx
          = some "replacement_failed" ∧
        (runTask idx (ClipPC.start (ClipOutcome.image u false)) L).2.1.status
          = L.status) := by
  refine ⟨?_, ?_, fun hu => ?_, fun hu => ?_⟩
  · by_cases ht : L.done + 1 = L.total <;>
      simp [runTask, stepAcc, clipStep, isFin, ht]
  · by_cases ht : L.done + 1 = L.total <;>
      simp [runTask, stepAcc, clipStep, isFin, ht]
  · by_cases ht : L.done + 1 = L.total <;>
      simp [runTask, stepAcc, clipStep, isFin, ht, hu]
  · by_cases ht : L.done + 1 = L.total <;>
      simp [runTask, stepAcc, clipStep, isFin, ht, hu]

/-- Witness for `c4_amended_degradable_errors`: both membership hypotheses
discharged at concrete ledgers. -/
theorem c4_amended_degradable_witness :
    (runTask 0 (ClipPC.start (ClipOutcome.image "x" true))
        (Ledger.mk "processing" 2 0 0 ["x"] (fun _ => none) (fun _ => none) none
          none)).2.1.clips 0 = some false ∧
    (runTask 0 (ClipPC.start (ClipOutcome.image "x" false))
        (ledgerAfterSplit 2)).2.1.clipErr 0 = some "replacement_failed" :=
  ⟨((c4_amended_degradable_errors
      (Ledger.mk "processing" 2 0 0 ["x"] (fun _ => none) (fun _ => none) none none)
      0 "x" true).2.2.1 (by decide)).1,
   ((c4_amended_degradable_errors (ledgerAfterSplit 2) 0 "x" true).2.2.2
      (by decide)).2.1⟩

/-! ## Used-image uniqueness -/

/-- C2, counterexample to the claim as stated: the membership test
(`SMEMBERS`, worker.py line 247) and the add (`SADD`, line 257) are two
separate ledger operations, not an atomic test-and-add.  In the
interleaving below, both tasks of a 2-clip job execute their membership
test before either executes its add; both find the URL absent, both commit,
and both clips end with `has_replacement=true` built from the same image
URL — the claimed invariant is violated. -/
theorem c2_counterexample_interleaved_same_image :
    ((runSys (fun i => (i : ℕ))
        (initSys 2 (fun _ => ClipOutcome.image "https://img" true))
        [0, 0, 1, 1, 0, 0, 0, 0, 0, 0, 1, 1, 1, 1, 1, 1]).1.ledger.clips 0
      = some true) ∧
    ((runSys (fun i => (i : ℕ))
        (initSys 2 (fun _ => ClipOutcome.image "https://img" true))
        [0, 0, 1, 1, 0, 0, 0, 0, 0, 0, 1, 1, 1, 1, 1, 1]).1.ledger.clips 1
      = some true) ∧
    (isFin ((runSys (fun i => (i : ℕ))
        (initSys 2 (fun _ => ClipOutcome.image "https://img" true))
        [0, 0, 1, 1, 0, 0, 0, 0, 0, 0, 1, 1, 1, 1, 1, 1]).1.tp 0) = true) ∧
    (isFin ((runSys (fun i => (i : ℕ))
        (initSys 2 (fun _ => ClipOutcome.image "https://img" true))
        [0, 0, 1, 1, 0, 0, 0, 0, 0, 0, 1, 1, 1, 1, 1, 1]).1.tp 1) = true) := by
  decide

/-- C2 as amended: the test and the add are separate ledger operations, so
two interleaved tasks can both consume the same URL; what holds is the
sequential guarantee: when two `process_clip` executions of the same job do
not interleave (the second starts after the first has finished), at most
one of the two clips ends with `has_replacement=true` built from that URL —
the later task finds the URL in the used-image set and falls back to the
original. -/
theorem c2_amended_sequential_no_duplicate_image (L0 : Ledger) (u : String)
    (ia ib : ℕ) (ba bb : Bool) (hne : ia ≠ ib) :
    ¬ ((runTask ib (ClipPC.start (ClipOutcome.image u bb))
          (runTask ia (ClipPC.start (ClipOutcome.image u ba)) L0).2.1).2.1.clips ia
            = some true ∧
       (runTask ib (ClipPC.start (ClipOutcome.image u bb))
          (runTask ia (ClipPC.start (ClipOutcome.image u ba)) L0).2.1).2.1.clips ib
            = some true) := by
  rintro ⟨ha, hb⟩
  rw [runTask_clips_frame ib _ _ ia hne] at ha
  have hu1 : u ∈ (runTask ia (ClipPC.start (ClipOutcome.image u ba)) L0).2.1.used :=
    runTask_image_true_implies_used ia u ba L0 ha
  have hfalse :=
    (runTask_image_member ib u bb
      (runTask ia (ClipPC.start (ClipOutcome.image u ba)) L0).2.1 hu1).1
  rw [hfalse] at hb
  exact Bool.false_ne_true (Option.some.inj hb)

/-- Witness for `c2_amended_sequential_no_duplicate_image` at a concrete
job. -/
theorem c2_amended_sequential_witness :
    (0 : ℕ) ≠ 1 ∧
    ¬ ((runTask 1 (ClipPC.start (ClipOutcome.image "u" true))
          (runTask 0 (ClipPC.start (ClipOutcome.image "u" true))
            (ledgerAfterSplit 2)).2.1).2.1.clips 0 = some true ∧
       (runTask 1 (ClipPC.start (ClipOutcome.image "u" true))
          (runTask 0 (ClipPC.start (ClipOutcome.image "u" true))
            (ledgerAfterSplit 2)).2.1).2.1.clips 1 = some true) :=
  ⟨by decide,
   c2_amended_sequential_no_duplicate_image (ledgerAfterSplit 2) "u" 0 1 true true
     (by decide)⟩

/-- C9: in a fresh job, a clip task that finds image `u`, adds it to the
used-image set and then fails to build the replacement (1) performs the
`SADD` strictly before the replacement construction, (2) leaves `u` in the
used set while that clip — and every clip of the job — has no replacement,
and (3) forces any later clip of the same job that matches `u` to fall back
to its original. -/
theorem c9_sadd_before_build_and_no_rollback (n : ℕ) (u : String) (ia ib : ℕ)
    (bb : Bool) :
    ((runTask ia (ClipPC.start (ClipOutcome.image u false))
        (ledgerAfterSplit n)).2.2.get? 2 = some (Ev.evSadd u) ∧
     (runTask ia (ClipPC.start (ClipOutcome.image u false))
        (ledgerAfterSplit n)).2.2.get? 3 = some (Ev.evBuild false)) ∧
    (u ∈ (runTask ia (ClipPC.start (ClipOutcome.image u false))
        (ledgerAfterSplit n)).2.1.used ∧
     (runTask ia (ClipPC.start (ClipOutcome.image u false))
        (ledgerAfterSplit n)).2.1.clips ia = some false ∧
     ∀ j, (runTask ia (ClipPC.start (ClipOutcome.image u false))
        (ledgerAfterSplit n)).2.1.clips j ≠ some true) ∧
    ((runTask ib (ClipPC.start (ClipOutcome.image u bb))
        (runTask ia (ClipPC.start (ClipOutcome.image u false))
          (ledgerAfterSplit n)).2.1).2.1.clips ib = some false) := by
  have hu : u ∉ (ledgerAfterSplit n).used := by simp [ledgerAfterSplit]
  have hgoal : ∀ j, (runTask ia (ClipPC.start (ClipOutcome.image u false))
      (ledgerAfterSplit n)).2.1.clips j ≠ some true := by
    intro j
    by_cases ht : (1 : ℕ) = n <;>
      by_cases hj : j = ia <;>
        simp [runTask, stepAcc, clipStep, isFin, hu, ht, hj, ledgerAfterSplit]
  have humem : u ∈ (runTask ia (ClipPC.start (ClipOutcome.image u false))
      (ledgerAfterSplit n)).2.1.used := by
    by_cases ht : (1 : ℕ) = n <;>
      simp [runTask, stepAcc, clipStep, isFin, hu, ht, List.mem_insert_iff,
        ledgerAfterSplit]
  refine ⟨⟨?_, ?_⟩, ⟨humem, ?_, hgoal⟩, ?_⟩
  · by_cases ht : (1 : ℕ) = n
    · subst ht
      simp [runTask, stepAcc, clipStep, isFin, hu, ledgerAfterSplit]
    · simp [runTask, stepAcc, clipStep, isFin, hu, ht, ledgerAfterSplit]
  · by_cases ht : (1 : ℕ) = n
    · subst ht
      simp [runTask, stepAcc, clipStep, isFin, hu, ledgerAfterSplit]
    · simp [runTask, stepAcc, clipStep, isFin, hu, ht, ledgerAfterSplit]
  · by_cases ht : (1 : ℕ) = n <;>
      simp [runTask, stepAcc, clipStep, isFin, hu, ht, ledgerAfterSplit]
  · exact (runTask_image_member ib u bb _ humem).1

/-! ## The fan-in invariant -/

theorem sum_comp_update {n : ℕ} (f : Fin n → ClipPC) (i : Fin n) (p : ClipPC)
    (g : ClipPC → ℕ) :
    (∑ j, g (Function.update f i p j)) + g (f i) = (∑ j, g (f j)) + g p := by
  have h1 : (∑ j, g (Function.update f i p j))
      = g p + ∑ j ∈ Finset.univ.erase i, g (f j) := by
    rw [← Finset.add_sum_erase _ _ (Finset.mem_univ i)]
    congr 1
    · simp
    · exact Finset.sum_congr rfl (fun j hj => by
        rw [Function.update_noteq (Finset.mem_erase.mp hj).1])
  have h2 : (∑ j, g (f j)) = g (f i) + ∑ j ∈ Finset.univ.erase i, g (f j) :=
    (Finset.add_sum_erase _ _ (Finset.mem_univ i)).symm
  omega

/-- The per-step facts of `clipStep` feeding the system invariant: the
stored total is never written; the done counter moves in lockstep with the
task's phase; the phase advances exactly on an `INCR` event; a drawn value
is either carried over or freshly produced by the `INCR` as `done + 1`; a
read-back total is either carried over or equals the stored total; the
stitch-enqueue counter moves in lockstep with the `fin n n` indicator; and
a task past its clip write has that key set. -/
theorem clipStep_facts (idx : ℕ) (p : ClipPC) (L : Ledger) :
    (clipStep idx p L).2.1.total = L.total ∧
    ((clipStep idx p L).2.1.done + phaseN p = L.done + phaseN (clipStep idx p L).1) ∧
    (phaseN (clipStep idx p L).1
      = phaseN p + (if isIncrEv (clipStep idx p L).2.2 = true then 1 else 0)) ∧
    (∀ d, drawn (clipStep idx p L).1 = some d →
      drawn p = some d ∨ (p = ClipPC.fanIncr ∧ d = L.done + 1)) ∧
    (∀ t, readTotalVal (clipStep idx p L).1 = some t →
      readTotalVal p = some t ∨ t = L.total) ∧
    (∀ k, (∀ d t, p = ClipPC.fanDecide d t → t = k) →
      (clipStep idx p L).2.1.stitchEnqueued + finEnqueued k p
        = L.stitchEnqueued + finEnqueued k (clipStep idx p L).1) ∧
    (wroteClip (clipStep idx p L).1 = true →
      (∃ b, (clipStep idx p L).2.1.clips idx = some b) ∨
        (wroteClip p = true ∧ (clipStep idx p L).2.1.clips idx = L.clips idx)) := by
  cases p with
  | start oc =>
    cases oc <;>
      simp [clipStep, phaseN, drawn, readTotalVal, finEnqueued, wroteClip, isIncrEv]
  | readUsed url buildOk =>
    by_cases h : url ∈ L.used <;>
      simp [clipStep, h, phaseN, drawn, readTotalVal, finEnqueued, wroteClip, isIncrEv]
  | doAdd url buildOk =>
    simp [clipStep, phaseN, drawn, readTotalVal, finEnqueued, wroteClip, isIncrEv]
  | building url ok =>
    cases ok <;>
      simp [clipStep, phaseN, drawn, readTotalVal, finEnqueued, wroteClip, isIncrEv]
  | wClip b e =>
    cases e <;>
      simp [clipStep, phaseN, drawn, readTotalVal, finEnqueued, wroteClip, isIncrEv]
  | wErr e =>
    simp [clipStep, phaseN, drawn, readTotalVal, finEnqueued, wroteClip, isIncrEv]
  | fanIncr =>
    simp [clipStep, phaseN, drawn, readTotalVal, finEnqueued, wroteClip, isIncrEv]
  | fanRead d =>
    simp [clipStep, phaseN, drawn, readTotalVal, finEnqueued, wroteClip, isIncrEv]
  | fanDecide d t =>
    by_cases h : d = t
    · subst h
      refine ⟨by simp [clipStep], by simp [clipStep, phaseN],
        by simp [clipStep, phaseN, isIncrEv], ?_, ?_, ?_, ?_⟩
      · intro d2 hd2
        left
        simpa [clipStep, drawn] using hd2
      · intro t2 ht2
        left
        simpa [clipStep, readTotalVal] using ht2
      · intro k hk
        have hdk : d = k := hk d d rfl
        subst hdk
        simp [clipStep, finEnqueued]
      · intro _
        exact Or.inr ⟨by simp [wroteClip], by simp [clipStep]⟩
    · refine ⟨by simp [clipStep, h], by simp [clipStep, h, phaseN],
        by simp [clipStep, h, phaseN, isIncrEv], ?_, ?_, ?_, ?_⟩
      · intro d2 hd2
        left
        simpa [clipStep, h, drawn] using hd2
      · intro t2 ht2
        left
        simpa [clipStep, h, readTotalVal] using ht2
      · intro k hk
        have htk : t = k := hk d t rfl
        subst htk
        simp [clipStep, h, finEnqueued]
      · intro _
        exact Or.inr ⟨by simp [wroteClip], by simp [clipStep, h]⟩
  | fin d t =>
    simp [clipStep, phaseN, drawn, readTotalVal, finEnqueued, wroteClip, isIncrEv]

/-- One scheduler step preserves the invariant, and the stepped task's phase
advances exactly when the step's event is an `INCR`. -/
theorem sysInv_step {n : ℕ} (idxOf : Fin n → ℕ) (hinj : Function.Injective idxOf)
    (s : Sys n) (h : SysInv n idxOf s) (i : Fin n) (p2 : ClipPC) (L2 : Ledger)
    (ev : Ev) (hstep : clipStep (idxOf i) (s.tp i) s.ledger = (p2, L2, ev)) :
    SysInv n idxOf ⟨L2, Function.update s.tp i p2⟩ ∧
    phaseN p2 = phaseN (s.tp i) + (if isIncrEv ev = true then 1 else 0) := by
  obtain ⟨hTot, hDone, hPos, hInj, hRead, hStitch, hClips⟩ := h
  obtain ⟨f1, f2, f3, f4, f5, f6, f7⟩ := clipStep_facts (idxOf i) (s.tp i) s.ledger
  rw [hstep] at f1 f2 f3 f4 f5 f6 f7
  simp only at f1 f2 f3 f4 f5 f6 f7
  have hDoneLe : s.ledger.done ≤ L2.done := by
    by_cases he : isIncrEv ev = true <;> simp [he] at f3 <;> omega
  have hPhaseSum := sum_comp_update s.tp i p2 phaseN
  have hFinSum := sum_comp_update s.tp i p2 (finEnqueued n)
  refine ⟨⟨?_, ?_, ?_, ?_, ?_, ?_, ?_⟩, f3⟩ <;> dsimp only
  · rw [f1, hTot]
  · omega
  · intro j d hd
    by_cases hj : j = i
    · subst hj
      rw [Function.update_same] at hd
      rcases f4 d hd with hold | ⟨hpi, hd1⟩
      · have := hPos j d hold
        omega
      · have hL2 : L2.done = s.ledger.done + 1 := by
          have : clipStep (idxOf j) (s.tp j) s.ledger
              = (ClipPC.fanRead (s.ledger.done + 1),
                  { s.ledger with done := s.ledger.done + 1 },
                  Ev.evIncr (s.ledger.done + 1)) := by
            rw [hpi]
            simp [clipStep]
          rw [this] at hstep
          have hL := congrArg (fun q => q.2.1.done) hstep
          simpa using hL.symm
        omega
    · rw [Function.update_noteq hj] at hd
      have := hPos j d hd
      omega
  · intro j k d hj hk
    by_cases hji : j = i <;> by_cases hki : k = i
    · rw [hji, hki]
    · subst hji
      rw [Function.update_same] at hj
      rw [Function.update_noteq hki] at hk
      rcases f4 d hj with hold | ⟨hpi, hd1⟩
      · exact hInj j k d hold hk
      · exfalso
        have := hPos k d hk
        omega
    · subst hki
      rw [Function.update_same] at hk
      rw [Function.update_noteq hji] at hj
      rcases f4 d hk with hold | ⟨hpi, hd1⟩
      · exact hInj j k d hj hold
      · exfalso
        have := hPos j d hj
        omega
    · rw [Function.update_noteq hji] at hj
      rw [Function.update_noteq hki] at hk
      exact hInj j k d hj hk
  · intro j t ht
    by_cases hj : j = i
    · subst hj
      rw [Function.update_same] at ht
      rcases f5 t ht with hold | hnew
      · exact hRead j t hold
      · rw [hnew, hTot]
    · rw [Function.update_noteq hj] at ht
      exact hRead j t ht
  · have hfd : ∀ d t, s.tp i = ClipPC.fanDecide d t → t = n := by
      intro d t hdt
      exact hRead i t (by rw [hdt]; rfl)
    have h6 := f6 n hfd
    omega
  · intro j hw
    by_cases hj : j = i
    · subst hj
      rw [Function.update_same] at hw
      rcases f7 hw with ⟨b, hb⟩ | ⟨hwp, hsame⟩
      · exact ⟨b, hb⟩
      · obtain ⟨b, hb⟩ := hClips j hwp
        exact ⟨b, by rw [hsame, hb]⟩
    · rw [Function.update_noteq hj] at hw
      obtain ⟨b, hb⟩ := hClips j hw
      have hfr : L2.clips (idxOf j) = s.ledger.clips (idxOf j) := by
        have := clipStep_clips_frame (idxOf i) (s.tp i) s.ledger (idxOf j)
          (fun hcontra => hj (hinj hcontra))
        rw [hstep] at this
        simpa using this
      exact ⟨b, by rw [hfr, hb]⟩

theorem countIncr_cons {n : ℕ} (i j : Fin n) (e : Ev) (tr : List (Fin n × Ev)) :
    countIncr i ((j, e) :: tr)
      = (if j = i ∧ isIncrEv e = true then 1 else 0) + countIncr i tr := by
  simp only [countIncr, List.filter_cons]
  by_cases hj : j = i <;> by_cases he : isIncrEv e = true <;>
    simp [hj, he] <;> omega

/-- The ledger state produced by `split_video` satisfies the invariant with
all tasks at `start`. -/
theorem sysInv_init (n : ℕ) (idxOf : Fin n → ℕ) (oc : Fin n → ClipOutcome) :
    SysInv n idxOf (initSys n oc) := by
  refine ⟨rfl, ?_, ?_, ?_, ?_, ?_, ?_⟩ <;>
    simp [initSys, ledgerAfterSplit, phaseN, drawn, readTotalVal, finEnqueued,
      wroteClip]

/-- Running any schedule from an invariant state ends in an invariant state,
and each task's phase has advanced by exactly the number of its `INCR`
events in the trace. -/
theorem runSys_inv {n : ℕ} (idxOf : Fin n → ℕ) (hinj : Function.Injective idxOf) :
    ∀ (sch : List (Fin n)) (s : Sys n), SysInv n idxOf s →
      SysInv n idxOf (runSys idxOf s sch).1 ∧
      ∀ i, phaseN ((runSys idxOf s sch).1.tp i)
        = phaseN (s.tp i) + countIncr i (runSys idxOf s sch).2 := by
  intro sch
  induction sch with
  | nil =>
    intro s hs
    exact ⟨hs, fun i => by simp [runSys, countIncr]⟩
  | cons a rest ih =>
    intro s hs
    rcases hstep : clipStep (idxOf a) (s.tp a) s.ledger with ⟨p2, L2, ev⟩
    have hsys : sysStep idxOf s a = (⟨L2, Function.update s.tp a p2⟩, (a, ev)) := by
      simp [sysStep, hstep]
    obtain ⟨hinv1, hphase1⟩ := sysInv_step idxOf hinj s hs a p2 L2 ev hstep
    obtain ⟨hinvf, hphasef⟩ := ih ⟨L2, Function.update s.tp a p2⟩ hinv1
    have hrun : runSys idxOf s (a :: rest)
        = ((runSys idxOf ⟨L2, Function.update s.tp a p2⟩ rest).1,
           (a, ev) :: (runSys idxOf ⟨L2, Function.update s.tp a p2⟩ rest).2) := by
      simp [runSys, hsys]
    refine ⟨by rw [hrun]; exact hinvf, ?_⟩
    intro i
    rw [hrun]
    dsimp only
    rw [countIncr_cons]
    by_cases hi : a = i
    · subst hi
      have := hphasef a
      dsimp only at this
      rw [Function.update_same] at this
      rw [this, hphase1]
      by_cases he : isIncrEv ev = true <;> simp [he] <;> omega
    · have := hphasef i
      dsimp only at this
      rw [Function.update_noteq (fun hcontra => hi hcontra.symm)] at this
      rw [this]
      simp [hi]

theorem isFin_iff (p : ClipPC) : isFin p = true ↔ ∃ d t, p = ClipPC.fin d t := by
  cases p <;> simp [isFin]

/-- In any invariant state in which every task has terminated, exactly one
`stitch_video` task has been enqueued, namely by the unique task whose
`INCR` returned `n`. -/
theorem sysInv_complete_stitch {n : ℕ} (hn : 1 ≤ n) (idxOf : Fin n → ℕ)
    (s : Sys n) (h : SysInv n idxOf s) (hfin : ∀ i, isFin (s.tp i) = true) :
    s.ledger.stitchEnqueued = 1 ∧ (∃! i, s.tp i = ClipPC.fin n n) := by
  obtain ⟨hTot, hDone, hPos, hInj, hRead, hStitch, hClips⟩ := h
  have hdrawn : ∀ i, drawn (s.tp i) = some ((drawn (s.tp i)).getD 0) := by
    intro i
    obtain ⟨d, t, hft⟩ := (isFin_iff _).mp (hfin i)
    rw [hft]
    rfl
  have hshape : ∀ i, s.tp i = ClipPC.fin ((drawn (s.tp i)).getD 0) n := by
    intro i
    obtain ⟨d, t, hft⟩ := (isFin_iff _).mp (hfin i)
    have htn : t = n := hRead i t (by rw [hft]; rfl)
    rw [hft, htn]
    rfl
  have hphase1 : ∀ i, phaseN (s.tp i) = 1 := by
    intro i
    rw [hshape i]
    rfl
  have hdone_n : s.ledger.done = n := by
    rw [hDone, Finset.sum_congr rfl (fun i _ => hphase1 i)]
    simp
  have hbound : ∀ i, 1 ≤ (drawn (s.tp i)).getD 0 ∧ (drawn (s.tp i)).getD 0 ≤ n := by
    intro i
    have := hPos i _ (hdrawn i)
    omega
  have hginj : Function.Injective (fun i => (drawn (s.tp i)).getD 0) := by
    intro i j hij
    dsimp only at hij
    exact hInj i j _ (hdrawn i) (by rw [hij]; exact hdrawn j)
  have himg : Finset.image (fun i => (drawn (s.tp i)).getD 0) Finset.univ
      = Finset.Icc 1 n := by
    apply Finset.eq_of_subset_of_card_le
    · intro x hx
      obtain ⟨i, _, rfl⟩ := Finset.mem_image.mp hx
      simpa [Finset.mem_Icc] using hbound i
    · rw [Finset.card_image_of_injective _ hginj, Finset.card_univ,
        Fintype.card_fin, Nat.card_Icc]
      omega
  have hn_mem : n ∈ Finset.image (fun i => (drawn (s.tp i)).getD 0) Finset.univ := by
    rw [himg]
    simp [Finset.mem_Icc]
    omega
  obtain ⟨i0, _, hgi0⟩ := Finset.mem_image.mp hn_mem
  have hgd_eq_n : ∀ i, (drawn (s.tp i)).getD 0 = n → i = i0 := by
    intro i hi
    exact hginj (by dsimp only; rw [hi, hgi0])
  constructor
  · rw [hStitch]
    have heach : ∀ i, finEnqueued n (s.tp i) = if i = i0 then 1 else 0 := by
      intro i
      rw [hshape i]
      unfold finEnqueued
      by_cases hii : i = i0
      · subst hii
        simp [hgi0]
      · have hne : (drawn (s.tp i)).getD 0 ≠ n := fun hcon => hii (hgd_eq_n i hcon)
        simp [hne, hii]
    rw [Finset.sum_congr rfl (fun i _ => heach i)]
    simp
  · refine ⟨i0, by show s.tp i0 = ClipPC.fin n n; rw [hshape i0, hgi0],
      fun j hj => ?_⟩
    have h2 : ClipPC.fin ((drawn (s.tp j)).getD 0) n = ClipPC.fin n n := by
      rw [← hshape j]
      exact hj
    exact hgd_eq_n j ((ClipPC.fin.injEq _ _ _ _).mp h2).1

/-- C1: for a job whose split stage recorded `clipCount = n ≥ 1`, across
every interleaving of the `n` `process_clip` task executions — whatever
each task's outcome — the `stitch_video` task is enqueued exactly once,
and the task that enqueued it is exactly the one whose atomic `INCR` of
`doneCount` returned `n` (ending at `fin n n`).  The `INCR`'s return value
feeds the comparison directly and `total` is never written during the
fan-in, so the increment-and-compare behaves as one atomic operation. -/
theorem c1_stitch_enqueued_exactly_once (n : ℕ) (hn : 1 ≤ n)
    (oc : Fin n → ClipOutcome) (idxOf : Fin n → ℕ)
    (hinj : Function.Injective idxOf) (sch : List (Fin n))
    (hcomp : ∀ i, isFin ((runSys idxOf (initSys n oc) sch).1.tp i) = true) :
    (runSys idxOf (initSys n oc) sch).1.ledger.stitchEnqueued = 1 ∧
    (∃! i, (runSys idxOf (initSys n oc) sch).1.tp i = ClipPC.fin n n) :=
  sysInv_complete_stitch hn idxOf _
    (runSys_inv idxOf hinj sch (initSys n oc) (sysInv_init n idxOf oc)).1 hcomp

/-- Witness for `c1_stitch_enqueued_exactly_once`: a 2-clip job, one clip
degraded (failed transcription) and one successful replacement, run on an
interleaved schedule. -/
theorem c1_stitch_exactly_once_witness :
    (runSys (fun i => (i : ℕ))
        (initSys 2 (fun i => if i = 0 then ClipOutcome.transcribeFail
          else ClipOutcome.image "https://img" true))
        [0, 1, 0, 1, 0, 1, 0, 1, 0, 1, 0, 1, 1, 1]).1.ledger.stitchEnqueued = 1 :=
  (c1_stitch_enqueued_exactly_once 2 (by decide)
    (fun i => if i = 0 then ClipOutcome.transcribeFail
      else ClipOutcome.image "https://img" true)
    (fun i => (i : ℕ)) (by decide)
    [0, 1, 0, 1, 0, 1, 0, 1, 0, 1, 0, 1, 1, 1] (by decide)).1

/-- C3: in every completed run of the `n` tasks (tasks for distinct clips),
every task — successful, degraded, or handled by the catch-all — has left
its clip's `has_replacement` key set to a Boolean value, and its event
trace contains exactly one `INCR` of the job's done counter. -/
theorem c3_every_execution_sets_flag_and_increments_once (n : ℕ)
    (oc : Fin n → ClipOutcome) (idxOf : Fin n → ℕ)
    (hinj : Function.Injective idxOf) (sch : List (Fin n))
    (hcomp : ∀ i, isFin ((runSys idxOf (initSys n oc) sch).1.tp i) = true)
    (i : Fin n) :
    (∃ b, (runSys idxOf (initSys n oc) sch).1.ledger.clips (idxOf i) = some b) ∧
    countIncr i (runSys idxOf (initSys n oc) sch).2 = 1 := by
  obtain ⟨hinvf, hphasef⟩ :=
    runSys_inv idxOf hinj sch (initSys n oc) (sysInv_init n idxOf oc)
  obtain ⟨d, t, hft⟩ := (isFin_iff _).mp (hcomp i)
  constructor
  · exact hinvf.2.2.2.2.2.2 i (by rw [hft]; rfl)
  · have := hphasef i
    rw [hft] at this
    simpa [phaseN, initSys] using this.symm

/-- Witness for `c3_every_execution_sets_flag_and_increments_once`: the
degraded clip 0 of the 2-clip job above has its flag set and exactly one
`INCR` in its trace. -/
theorem c3_sets_flag_increments_once_witness :
    countIncr 0 (runSys (fun i => (i : ℕ))
        (initSys 2 (fun i => if i = 0 then ClipOutcome.transcribeFail
          else ClipOutcome.image "https://img" true))
        [0, 1, 0, 1, 0, 1, 0, 1, 0, 1, 0, 1, 1, 1]).2 = 1 :=
  (c3_every_execution_sets_flag_and_increments_once 2
    (fun i => if i = 0 then ClipOutcome.transcribeFail
      else ClipOutcome.image "https://img" true)
    (fun i => (i : ℕ)) (by decide)
    [0, 1, 0, 1, 0, 1, 0, 1, 0, 1, 0, 1, 1, 1] (by decide) 0).2

/-! ## Final URL versus job status -/

/-- C7, counterexample to the claim as stated: `stitch_video` writes
`final_url` (line 381) one ledger operation before it writes
`status="finished"` (line 382), so the system passes through a reachable
ledger state in which the final-output reference is set while the status is
still `"stitching"`. -/
theorem c7_counterexample_final_url_set_while_stitching :
    ∃ s ∈ stitchStates (StitchOutcome.ok "https://final")
        ⟨"processing", 2, 2, 0, [], fun _ => some false, fun _ => none, none, none⟩,
      s.2.finalUrl = some "https://final" ∧ s.2.status = "stitching" := by decide

/-- C7 as amended: starting from any pre-stitch ledger state with no final
URL and a non-finished status, every state traversed by `stitch_video`
satisfies "`final_url` is set iff `status` is `finished`" except the single
state between the `final_url` write and the `status="finished"` write,
where the URL is set while the status is still `"stitching"`; a successful
stitch ends with `final_url` set and status `finished`, a failed one with
no `final_url` and status `failed`; and the status route exposes a
`final_url` exactly when the stored status is `"finished"`. -/
theorem c7_amended_final_url_iff_finished (L : Ledger) (oc : StitchOutcome)
    (hF : L.finalUrl = none) (hS : L.status ≠ "finished") :
    (∀ s ∈ stitchStates oc L,
        (s.2.finalUrl.isSome = true ↔ s.2.status = "finished") ∨
          (s.2.finalUrl.isSome = true ∧ s.2.status = "stitching" ∧
            s.1 = StitchPC.setFinished)) ∧
    (∀ u, oc = StitchOutcome.ok u →
        (stitchFinal oc L).finalUrl = some u ∧
          (stitchFinal oc L).status = "finished") ∧
    (∀ m, oc = StitchOutcome.fail m →
        (stitchFinal oc L).finalUrl = none ∧
          (stitchFinal oc L).status = "failed") ∧
    (∀ supabaseUrl bucket jobId L2,
        ((get_job_status_data supabaseUrl bucket jobId L2).final_url.isSome = true ↔
          L2.status = "finished")) := by
  refine ⟨?_, ?_, ?_, ?_⟩
  · cases oc with
    | ok u =>
      intro s hs
      simp only [stitchStates, stitchStep, List.mem_cons, List.not_mem_nil,
        or_false] at hs
      rcases hs with h | h | h | h | h <;> subst h <;> simp [hF, hS]
    | fail m =>
      intro s hs
      simp only [stitchStates, stitchStep, List.mem_cons, List.not_mem_nil,
        or_false] at hs
      rcases hs with h | h | h | h | h <;> subst h <;> simp [hF, hS]
  · intro u hu
    subst hu
    simp [stitchFinal, stitchStates, stitchStep]
  · intro m hm
    subst hm
    simp [stitchFinal, stitchStates, stitchStep, hF]
  · intro supabaseUrl bucket jobId L2
    by_cases h2 : L2.status = "finished" <;> simp [get_job_status_data, h2]

/-- Witness for `c7_amended_final_url_iff_finished` at a concrete pre-stitch
state and a successful stitch outcome. -/
theorem c7_amended_witness :
    (Ledger.mk "stitching" 1 1 1 [] (fun _ => some false) (fun _ => none) none
        none).finalUrl = none ∧
    (stitchFinal (StitchOutcome.ok "https://f")
        (Ledger.mk "stitching" 1 1 1 [] (fun _ => some false) (fun _ => none) none
          none)).status = "finished" :=
  ⟨rfl,
    ((c7_amended_final_url_iff_finished
        (Ledger.mk "stitching" 1 1 1 [] (fun _ => some false) (fun _ => none) none
          none)
        (StitchOutcome.ok "https://f") rfl (by decide)).2.1 "https://f" rfl).2⟩

end Perplexed
